import Mathlib

/-!
Shallow embedding of the conditional-branching engine of the `exergyform`
form builder (`src/lib/branching.ts`, types from `src/lib/database.types.ts`),
together with theorems settling the specification claims about it.

Modelling conventions:
* The TypeScript `Json` answer values are the inductive `Json` below.  JSON
  numbers are modelled as integers (`Int`); every value the claims exercise is
  an integer, a string, a boolean, null, or a list of those.
* JavaScript `String(x)` coercion is `jsonToString` (and `condValueToString`
  for the `string | string[]` condition value), following the ECMAScript
  rules: arrays join their elements with `","` (null elements become the
  empty string), plain objects render as `"[object Object]"`, booleans as
  `"true"`/`"false"`, numbers in decimal.
* `Record<string, Json>` answer maps are association lists with first-match
  lookup (record keys are unique, so the choice is immaterial).
* A TS value of type `string | null` is `Option String` (`none` = `null`);
  an optional field `defaultNextId?: string | null` has the three-state type
  `Option (Option String)` (`none` = not configured/`undefined`,
  `some none` = explicit `null` i.e. END, `some (some i)` = explicit target).
* `Array.prototype.includes` uses SameValueZero (strict) equality.  When the
  needle is a string, only a string element with the same characters matches
  (a number never `===` a string).  When the needle is the condition's own
  `string[]` array, no element of a separately-built answer array can be
  reference-equal to it, so the test is `false` (`jsArrayIncludesCondValue`).
-/

/-- The `Json` type of `database.types.ts`: string, number, boolean, null,
object, or array.  Numbers are modelled as integers. -/
inductive Json where
  | str : String → Json
  | num : Int → Json
  | bool : Bool → Json
  | null : Json
  | arr : List Json → Json
  | obj : List (String × Json) → Json

mutual

/-- JavaScript `String(x)` on a `Json` value. -/
def jsonToString : Json → String
  | .str s => s
  | .num n => toString n
  | .bool b => if b then "true" else "false"
  | .null => "null"
  | .arr xs => jsonArrayJoin xs
  | .obj _ => "[object Object]"

/-- JavaScript `Array.prototype.toString` (a comma join). -/
def jsonArrayJoin : List Json → String
  | [] => ""
  | [x] => jsonElementString x
  | x :: xs => jsonElementString x ++ "," ++ jsonArrayJoin xs

/-- String form of one array element inside a join: `null` renders empty. -/
def jsonElementString : Json → String
  | .str s => s
  | .num n => toString n
  | .bool b => if b then "true" else "false"
  | .null => ""
  | .arr xs => jsonArrayJoin xs
  | .obj _ => "[object Object]"

end

/-- `BranchOperator` of `database.types.ts`:
`'equals' | 'not_equals' | 'contains' | 'in'` (`in` is a Lean keyword, hence
the constructor name `in_op`). -/
inductive BranchOperator where
  | equals : BranchOperator
  | not_equals : BranchOperator
  | contains : BranchOperator
  | in_op : BranchOperator
deriving DecidableEq, Repr

/-- The condition value type `string | string[]`. -/
inductive CondValue where
  | scalar : String → CondValue
  | list : List String → CondValue
deriving DecidableEq, Repr

/-- JavaScript `String()` on a `string | string[]` condition value
(an array joins with `","`). -/
def condValueToString : CondValue → String
  | .scalar s => s
  | .list ss => String.intercalate "," ss

/-- The `condition` field of `BranchRule`. -/
structure BranchCondition where
  questionId : String
  operator : BranchOperator
  value : CondValue
deriving DecidableEq, Repr

/-- `BranchRule` of `database.types.ts`; `nextQuestionId` is
`string | null`, with `null` (here `none`) meaning "end the form". -/
structure BranchRule where
  id : String
  condition : BranchCondition
  nextQuestionId : Option String
deriving DecidableEq, Repr

/-- `QuestionType` of `database.types.ts`. -/
inductive QuestionType where
  | short_text | long_text | dropdown | checkboxes | email | phone
  | number | date | rating | opinion_scale | yes_no | file_upload
  | url | location
deriving DecidableEq, Repr

/-- `QuestionConfig` of `database.types.ts`, restricted to the fields the
branching engine reads (plus the required `title`/`required` fields); the
remaining optional presentation fields (`description`, `placeholder`,
`allowedFileTypes`, `maxFileSize`) are never read by `branching.ts` and are
omitted.  `minValue`/`maxValue` are modelled as integers. -/
structure QuestionConfig where
  id : String
  type : QuestionType
  title : String
  required : Bool
  options : Option (List String)
  minValue : Option Int
  maxValue : Option Int
  branches : Option (List BranchRule)
  defaultNextId : Option (Option String)
deriving DecidableEq, Repr

/-- `Record<string, Json>` answer maps, as association lists. -/
abbrev Answers := List (String × Json)

/-- `answers[key]`: JavaScript property access, `Option.none` when the key is
missing (`undefined`). -/
def lookupAnswer (answers : Answers) (key : String) : Option Json :=
  answers.lookup key

/-- `answer.includes(conditionValue as string)` on an array answer:
SameValueZero equality of each element against the condition value.  A string
needle matches exactly the equal string elements; the condition's own
`string[]` array is never reference-equal to an element of the answer array,
so an array needle matches nothing. -/
def jsArrayIncludesCondValue (xs : List Json) (cv : CondValue) : Bool :=
  match cv with
  | .scalar s => xs.any fun j => match j with | .str t => t == s | _ => false
  | .list _ => false

/-- JavaScript `String.prototype.includes`: substring test. -/
def strIncludes (s sub : String) : Bool :=
  decide (List.IsInfix sub.data s.data)

/-- `evaluateCondition` of `src/lib/branching.ts` (lines 6–51): evaluate one
branch condition against the current answers. -/
def evaluateCondition (condition : BranchCondition) (answers : Answers) : Bool :=
  match lookupAnswer answers condition.questionId with
  -- `if (answer === null || answer === undefined) return false`
  | none => false
  | some .null => false
  | some answer =>
    let answerStr := jsonToString answer
    let conditionValue := condition.value
    match condition.operator with
    | .equals =>
      match answer with
      | .arr xs => jsArrayIncludesCondValue xs conditionValue
      | _ => answerStr == condValueToString conditionValue
    | .not_equals =>
      match answer with
      | .arr xs => !jsArrayIncludesCondValue xs conditionValue
      | _ => answerStr != condValueToString conditionValue
    | .contains =>
      match answer with
      | .arr xs => xs.any fun a =>
          strIncludes (jsonToString a).toLower (condValueToString conditionValue).toLower
      | _ => strIncludes answerStr.toLower (condValueToString conditionValue).toLower
    | .in_op =>
      -- `if (!Array.isArray(conditionValue)) return false`
      match conditionValue with
      | .scalar _ => false
      | .list vs =>
        match answer with
        | .arr xs => xs.any fun a => vs.contains (jsonToString a)
        | _ => vs.contains answerStr

/-- JavaScript `Array.prototype.findIndex`, with `none` in place of `-1`,
threading the running index like the iteration does. -/
def findIndexAux (p : QuestionConfig → Bool) : List QuestionConfig → Nat → Option Nat
  | [], _ => none
  | q :: rest, i => if p q then some i else findIndexAux p rest (i + 1)

/-- `allQuestions.findIndex(...)` starting at index 0 (`none` = JS `-1`). -/
def findIndex (p : QuestionConfig → Bool) (l : List QuestionConfig) : Option Nat :=
  findIndexAux p l 0

/-- The early-returning `for` loop of `getNextQuestionId` (lines 63–69),
guarded by `branches && branches.length > 0`: the first rule whose condition
evaluates true contributes its target (`some target`), otherwise the loop
falls through (`none`). -/
def branchRuleTarget (currentQuestion : QuestionConfig) (answers : Answers) :
    Option (Option String) :=
  match currentQuestion.branches with
  | some branches =>
    if branches.length > 0 then
      (branches.find? fun b => evaluateCondition b.condition answers).map
        (fun b => b.nextQuestionId)
    else none
  | none => none

/-- `getNextQuestionId` of `src/lib/branching.ts` (lines 57–84): the next
question id under branch-rule precedence, `none` meaning `null`/end-of-form.
The index check `currentIndex >= 0 && currentIndex < allQuestions.length - 1`
is `findIndex = some i` together with `get? (i+1) = some nextQ`. -/
def getNextQuestionId (currentQuestion : QuestionConfig)
    (allQuestions : List QuestionConfig) (answers : Answers) : Option String :=
  match branchRuleTarget currentQuestion answers with
  | some branchResult => branchResult
  | none =>
    -- `if (currentQuestion.defaultNextId !== undefined) return it`
    match currentQuestion.defaultNextId with
    | some configured => configured
    | none =>
      -- linear fallback: next question in array order
      match findIndex (fun q => q.id == currentQuestion.id) allQuestions with
      | some currentIndex =>
        match allQuestions.get? (currentIndex + 1) with
        | some nextQ => some nextQ.id
        | none => none
      | none => none

/-- The `while` loop of `getQuestionPath` (lines 103–118), with the iteration
budget `fuel` standing for `maxIterations - iterations` and the accumulated
path kept reversed.  A cursor of `none` is JS `null`; a cursor of `""` is
falsy in JS, so the `while (currentId && ...)` guard also stops there. -/
def pathLoop (questions : List QuestionConfig) (answers : Answers) :
    Nat → Option String → List String → List QuestionConfig → List QuestionConfig
  | 0, _, _, path => path.reverse
  | _ + 1, none, _, path => path.reverse
  | fuel + 1, some currentId, visited, path =>
    if currentId == "" then path.reverse
    else if visited.contains currentId then path.reverse
    else
      match questions.find? fun q => q.id == currentId with
      | none => path.reverse
      | some question =>
        pathLoop questions answers fuel
          (getNextQuestionId question questions answers)
          (currentId :: visited) (question :: path)

/-- `startFromId || questions[0].id`: the start cursor falls back to the
first question's id when the given start id is absent — or the empty string,
which is falsy in JavaScript. -/
def jsStartId (startFromId : Option String) (firstId : String) : String :=
  match startFromId with
  | some s => if s == "" then firstId else s
  | none => firstId

/-- `getQuestionPath` of `src/lib/branching.ts` (lines 90–122): the expected
question path under the current answers;
`maxIterations = questions.length * 2`. -/
def getQuestionPath (questions : List QuestionConfig) (answers : Answers)
    (startFromId : Option String) : List QuestionConfig :=
  match questions with
  | [] => []
  | q0 :: _ =>
    pathLoop questions answers (questions.length * 2)
      (some (jsStartId startFromId q0.id)) [] []

/-- `getQuestionValues`' inclusive range construction
`Array.from({length: max - min + 1}, (_, i) => String(min + i))`
(a non-positive length yields the empty array). -/
def intRangeStrings (lo hi : Int) : List String :=
  (List.range (hi - lo + 1).toNat).map fun i => toString (lo + Int.ofNat i)

/-- JavaScript `configured || dflt` on an optional numeric field: the default
applies when the field is `undefined` — and also when it is `0`, since `0` is
falsy. -/
def jsOrDefault (configured : Option Int) (dflt : Int) : Int :=
  match configured with
  | some n => if n = 0 then dflt else n
  | none => dflt

/-- `getQuestionValues` of `src/lib/branching.ts` (lines 167–195): the
discrete possible answers of a question, for use in branch conditions. -/
def getQuestionValues (question : QuestionConfig) : List String :=
  match question.type with
  | .dropdown | .checkboxes => question.options.getD []
  | .yes_no => ["Yes", "No"]
  | .rating =>
    let minRating := jsOrDefault question.minValue 1
    let maxRating := jsOrDefault question.maxValue 5
    intRangeStrings minRating maxRating
  | .opinion_scale =>
    let minScale := jsOrDefault question.minValue 1
    let maxScale := jsOrDefault question.maxValue 10
    intRangeStrings minScale maxScale
  | _ => []

/-- `createBranchRule` of `src/lib/branching.ts` (lines 200–215).  The source
draws `crypto.randomUUID()` for the new rule's id; the shallow embedding
makes that ambient draw the explicit first argument `generatedId`.  The
TS parameter defaults (`operator = 'equals'`, `value = ''`,
`nextQuestionId = null`) are passed explicitly here. -/
def createBranchRule (generatedId : String) (questionId : String)
    (operator : BranchOperator) (value : String)
    (nextQuestionId : Option String) : BranchRule :=
  { id := generatedId
    condition := { questionId := questionId, operator := operator, value := .scalar value }
    nextQuestionId := nextQuestionId }

/-- The specification's structural-order fallback, in its own words: "the id
of the question immediately following the current one in the list, or END if
the current question is last" (and END when the question does not occur). -/
def structuralNext (idStr : String) : List QuestionConfig → Option String
  | [] => none
  | q :: rest =>
    if q.id == idStr then
      match rest with
      | [] => none
      | next :: _ => some next.id
    else structuralNext idStr rest

/-- The Next-Question Resolver as the specification words its precedence:
(1) the target of the first branch rule in declared order whose condition
evaluates true; (2) otherwise the explicitly configured default-next (END or
a specific id); (3) otherwise structural order.  Written from the spec, to be
compared with `getNextQuestionId` (written from the source). -/
def resolveSpec (question : QuestionConfig) (questionList : List QuestionConfig)
    (answers : Answers) : Option String :=
  match (question.branches.getD []).find? fun b => evaluateCondition b.condition answers with
  | some rule => rule.nextQuestionId
  | none =>
    match question.defaultNextId with
    | some configured => configured
    | none => structuralNext question.id questionList

/-- The first `n` consecutive integers starting at `lo`, as decimal
strings — the specification's "inclusive integer range (as strings)",
written by direct recursion (to be compared with the source's
`Array.from` construction `intRangeStrings`). -/
def specRangeFrom (lo : Int) : Nat → List String
  | 0 => []
  | n + 1 => toString lo :: specRangeFrom (lo + 1) n

/-- The inclusive range `lo..hi` as decimal strings (empty when `hi < lo`). -/
def specRangeStrings (lo hi : Int) : List String :=
  specRangeFrom lo (hi + 1 - lo).toNat

/-- Fixture: a rating question with configured `minValue = 1`,
`maxValue = 5` (the spec's `ratingQuestion{min:1,max:5}` example). -/
def exRating15 : QuestionConfig :=
  { id := "rating-q", type := .rating, title := "Rate this", required := true
    options := none, minValue := some 1, maxValue := some 5
    branches := none, defaultNextId := none }

/-- Fixture: a rating question with configured `minValue = 0`,
`maxValue = 5` — `0` is falsy in JavaScript, so `minValue || 1` discards it. -/
def exRating05 : QuestionConfig :=
  { id := "rating-q0", type := .rating, title := "Rate this", required := true
    options := none, minValue := some 0, maxValue := some 5
    branches := none, defaultNextId := none }

/-- Fixture: question A of a 2-cycle (A's default-next = B). -/
def exCycleA : QuestionConfig :=
  { id := "A", type := .short_text, title := "A", required := false
    options := none, minValue := none, maxValue := none
    branches := none, defaultNextId := some (some "B") }

/-- Fixture: question B of a 2-cycle (B's default-next = A). -/
def exCycleB : QuestionConfig :=
  { id := "B", type := .short_text, title := "B", required := false
    options := none, minValue := none, maxValue := none
    branches := none, defaultNextId := some (some "A") }

/-- Fixture: a plain question with id `"a"` and nothing configured. -/
def exPlain : QuestionConfig :=
  { id := "a", type := .short_text, title := "a", required := false
    options := none, minValue := none, maxValue := none
    branches := none, defaultNextId := none }

/-- Fixture: a question whose id `"x"` occurs in no list we pair it with; it
carries one branch rule whose condition (over the empty answer map) is false,
and no configured default-next. -/
def exOrphan : QuestionConfig :=
  { id := "x", type := .short_text, title := "x", required := false
    options := none, minValue := none, maxValue := none
    branches := some [{ id := "r1"
                        condition := { questionId := "src", operator := .equals
                                       value := .scalar "v" }
                        nextQuestionId := some "a" }]
    defaultNextId := none }

/-- Shifting the running index of `findIndexAux` shifts its result. -/
theorem findIndexAux_map_add (p : QuestionConfig → Bool) :
    ∀ (l : List QuestionConfig) (i : Nat),
      findIndexAux p l i = (findIndexAux p l 0).map (· + i) := by
  intro l
  induction l with
  | nil => intro i; rfl
  | cons q rest ih =>
    intro i
    simp only [findIndexAux]
    cases hq : p q with
    | true => simp
    | false =>
      simp only [if_false, Bool.false_eq_true, ite_false]
      rw [ih (i + 1), ih 1]
      cases hbase : findIndexAux p rest 0
      · rfl
      · simp
        omega

/-- The linear fallback of `getNextQuestionId` (JS `findIndex` plus bounded
successor access) computes the specification's structural-order successor. -/
theorem linearFallback_eq_structuralNext (idStr : String) :
    ∀ l : List QuestionConfig,
      (match findIndex (fun q => q.id == idStr) l with
       | some i =>
         match l.get? (i + 1) with
         | some nextQ => some nextQ.id
         | none => none
       | none => none) = structuralNext idStr l := by
  intro l
  induction l with
  | nil => rfl
  | cons q rest ih =>
    simp only [findIndex, findIndexAux, structuralNext]
    by_cases hq : (q.id == idStr) = true
    · simp only [hq, ite_true]
      cases rest <;> rfl
    · simp only [hq, ite_false]
      rw [show findIndexAux (fun q => q.id == idStr) rest 1
            = (findIndex (fun q => q.id == idStr) rest).map (· + 1) from
          findIndexAux_map_add _ rest 1]
      rw [← ih]
      cases hb : findIndex (fun q => q.id == idStr) rest with
      | none => rfl
      | some j => rfl

/-- Every stop branch of `pathLoop` returns the reversed accumulator, which
keeps the accumulator's membership, distinctness, and length facts. -/
theorem pathLoop_stop_case (questions : List QuestionConfig)
    (acc : List QuestionConfig) (n : Nat)
    (h1 : ∀ q ∈ acc, q ∈ questions)
    (h2 : (acc.map fun q => q.id).Nodup) :
    (∀ q ∈ acc.reverse, q ∈ questions) ∧
    ((acc.reverse.map fun q => q.id).Nodup) ∧
    acc.reverse.length ≤ acc.length + n := by
  refine ⟨fun q hq => h1 q (List.mem_reverse.mp hq), ?_, ?_⟩
  · rw [List.map_reverse]
    exact List.nodup_reverse.mpr h2
  · rw [List.length_reverse]
    omega

/-- Loop invariant of `getQuestionPath`'s `while` loop: starting from an
accumulator of questions drawn from the input list, with pairwise-distinct
ids all recorded in the visited set, the loop returns a list of questions
drawn from the input list, with pairwise-distinct ids, and appends at most
`fuel` further entries. -/
theorem pathLoop_invariant (questions : List QuestionConfig) (answers : Answers) :
    ∀ (fuel : Nat) (cur : Option String) (visited : List String)
      (acc : List QuestionConfig),
      (∀ q ∈ acc, q ∈ questions) →
      ((acc.map fun q => q.id).Nodup) →
      (∀ q ∈ acc, q.id ∈ visited) →
      (∀ q ∈ pathLoop questions answers fuel cur visited acc, q ∈ questions) ∧
      (((pathLoop questions answers fuel cur visited acc).map fun q => q.id).Nodup) ∧
      (pathLoop questions answers fuel cur visited acc).length ≤ acc.length + fuel := by
  intro fuel
  induction fuel with
  | zero =>
    intro cur visited acc h1 h2 _
    exact pathLoop_stop_case questions acc 0 h1 h2
  | succ fuel ih =>
    intro cur visited acc h1 h2 h3
    cases cur with
    | none => exact pathLoop_stop_case questions acc (fuel + 1) h1 h2
    | some currentId =>
      by_cases hempty : (currentId == "") = true
      · have heq : pathLoop questions answers (fuel + 1) (some currentId) visited acc
            = acc.reverse := by
          simp only [pathLoop]
          rw [if_pos hempty]
        rw [heq]
        exact pathLoop_stop_case questions acc (fuel + 1) h1 h2
      · by_cases hvis : (visited.contains currentId) = true
        · have heq : pathLoop questions answers (fuel + 1) (some currentId) visited acc
              = acc.reverse := by
            simp only [pathLoop]
            rw [if_neg hempty, if_pos hvis]
          rw [heq]
          exact pathLoop_stop_case questions acc (fuel + 1) h1 h2
        · cases hfind : questions.find? fun q => q.id == currentId with
          | none =>
            have heq : pathLoop questions answers (fuel + 1) (some currentId) visited acc
                = acc.reverse := by
              simp only [pathLoop]
              rw [if_neg hempty, if_neg hvis, hfind]
            rw [heq]
            exact pathLoop_stop_case questions acc (fuel + 1) h1 h2
          | some question =>
            have heq : pathLoop questions answers (fuel + 1) (some currentId) visited acc
                = pathLoop questions answers fuel
                    (getNextQuestionId question questions answers)
                    (currentId :: visited) (question :: acc) := by
              simp only [pathLoop]
              rw [if_neg hempty, if_neg hvis, hfind]
            rw [heq]
            have hqmem : question ∈ questions := List.mem_of_find?_eq_some hfind
            have hqid : question.id = currentId := by
              have := List.find?_some hfind
              simpa using this
            have hnotvis : currentId ∉ visited := by
              intro hmem
              exact hvis (by simpa using hmem)
            have h1' : ∀ q ∈ question :: acc, q ∈ questions := by
              intro q hq
              rcases List.mem_cons.mp hq with rfl | hq
              · exact hqmem
              · exact h1 q hq
            have h2' : ((question :: acc).map fun q => q.id).Nodup := by
              simp only [List.map_cons, List.nodup_cons]
              refine ⟨?_, h2⟩
              intro hmem
              obtain ⟨q', hq', heq⟩ := List.mem_map.mp hmem
              exact hnotvis (hqid ▸ heq ▸ h3 q' hq')
            have h3' : ∀ q ∈ question :: acc, q.id ∈ currentId :: visited := by
              intro q hq
              rcases List.mem_cons.mp hq with rfl | hq
              · exact hqid ▸ List.mem_cons_self _ _
              · exact List.mem_cons_of_mem _ (h3 q hq)
            obtain ⟨ha, hb, hc⟩ :=
              ih (getNextQuestionId question questions answers)
                (currentId :: visited) (question :: acc) h1' h2' h3'
            refine ⟨ha, hb, ?_⟩
            simp only [List.length_cons] at hc
            omega

/-- The `Array.from`-style indexed range construction agrees with the direct
recursive range on strings. -/
theorem rangeMap_eq_specRangeFrom :
    ∀ (n : Nat) (lo : Int),
      (List.range n).map (fun i => toString (lo + Int.ofNat i)) = specRangeFrom lo n := by
  intro n
  induction n with
  | zero => intro lo; rfl
  | succ n ih =>
    intro lo
    rw [List.range_succ_eq_map]
    simp only [List.map_cons, List.map_map, specRangeFrom]
    congr 1
    · congr 1
      simp
    · rw [← ih (lo + 1)]
      apply List.map_congr_left
      intro i _
      simp only [Function.comp_apply]
      congr 1
      simp only [Int.ofNat_eq_coe]
      push_cast
      ring

/-- `intRangeStrings` (the source's construction) is the inclusive range of
decimal strings (the specification's description). -/
theorem intRangeStrings_eq_specRange (lo hi : Int) :
    intRangeStrings lo hi = specRangeStrings lo hi := by
  unfold intRangeStrings specRangeStrings
  rw [show hi - lo + 1 = hi + 1 - lo by ring]
  exact rangeMap_eq_specRangeFrom _ lo

/-- The strict `includes` test over an array answer and a scalar condition
value is exactly membership of that value, as a JSON string, in the array. -/
theorem jsArrayIncludes_scalar_iff (xs : List Json) (s : String) :
    jsArrayIncludesCondValue xs (.scalar s) = true ↔ Json.str s ∈ xs := by
  simp only [jsArrayIncludesCondValue, List.any_eq_true]
  constructor
  · rintro ⟨j, hj, hmatch⟩
    cases j <;> simp_all
  · intro h
    exact ⟨Json.str s, h, by simp⟩

/-- If no element satisfies the predicate, JS `findIndex` reports no index. -/
theorem findIndexAux_eq_none (p : QuestionConfig → Bool) :
    ∀ (l : List QuestionConfig), (∀ q ∈ l, p q = false) → ∀ i, findIndexAux p l i = none := by
  intro l
  induction l with
  | nil => intro _ _; rfl
  | cons q rest ih =>
    intro h i
    simp only [findIndexAux]
    rw [if_neg (by simp [h q (List.mem_cons_self q rest)])]
    exact ih (fun q' hq' => h q' (List.mem_cons_of_mem q hq')) (i + 1)

/-- The guarded rule loop is a plain first-match scan over the question's
rule list (an absent rule list scans the empty list). -/
theorem branchRuleTarget_eq_find (cq : QuestionConfig) (answers : Answers) :
    branchRuleTarget cq answers
      = ((cq.branches.getD []).find? fun b => evaluateCondition b.condition answers).map
          (fun b => b.nextQuestionId) := by
  unfold branchRuleTarget
  cases cq.branches with
  | none => rfl
  | some branches =>
    cases branches with
    | nil => rfl
    | cons b bs =>
      show (if (b :: bs).length > 0 then
              ((b :: bs).find? fun r => evaluateCondition r.condition answers).map
                (fun r => r.nextQuestionId)
            else none)
          = ((b :: bs).find? fun r => evaluateCondition r.condition answers).map
              (fun r => r.nextQuestionId)
      rw [if_pos (by simp : ((b :: bs) : List BranchRule).length > 0)]

/-- The default/linear tail of the resolver agrees with the specification's
"configured default-next, else structural order" description. -/
theorem resolverTail_eq_spec (cq : QuestionConfig) (qs : List QuestionConfig) :
    (match cq.defaultNextId with
     | some configured => configured
     | none =>
       match findIndex (fun q => q.id == cq.id) qs with
       | some currentIndex =>
         match qs.get? (currentIndex + 1) with
         | some nextQ => some nextQ.id
         | none => none
       | none => none)
    = (match cq.defaultNextId with
       | some configured => configured
       | none => structuralNext cq.id qs) := by
  cases cq.defaultNextId with
  | some configured => rfl
  | none => exact linearFallback_eq_structuralNext cq.id qs

/-- A list of questions with pairwise-distinct ids, all drawn from `qs`, is
no longer than `qs`. -/
theorem length_le_of_nodup_ids (p qs : List QuestionConfig)
    (hmem : ∀ q ∈ p, q ∈ qs)
    (hnd : (p.map fun q => q.id).Nodup) :
    p.length ≤ qs.length := by
  have hsub : ∀ x ∈ p.map fun q => q.id, x ∈ qs.map fun q => q.id := by
    intro x hx
    obtain ⟨q, hq, rfl⟩ := List.mem_map.mp hx
    exact List.mem_map_of_mem _ (hmem q hq)
  have h1 : (p.map fun q => q.id).toFinset.card = p.length := by
    rw [List.toFinset_card_of_nodup hnd, List.length_map]
  have h2 : (p.map fun q => q.id).toFinset ⊆ (qs.map fun q => q.id).toFinset := by
    intro x hx
    rw [List.mem_toFinset] at hx ⊢
    exact hsub x hx
  have h3 := Finset.card_le_card h2
  have h4 := (qs.map fun q => q.id).toFinset_card_le
  rw [List.length_map] at h4
  omega

/-- **C1.** For every question list, answer map, and optional start id, the
Path Projector `getQuestionPath` terminates and never raises (it is a total
function into plain lists), returns a sequence whose length is at most
`2 × questions.length`, never appends an END marker to the path (every path
element is a question of the input list; END is the `none` cursor value, not
a possible element), and returns the empty sequence for an empty question
list.  The statement quantifies over all inputs, so it covers cyclic graphs
such as the 2-cycle `exCycleA`/`exCycleB` (exercised by the witness). -/
theorem getQuestionPath_total_bounded (questions : List QuestionConfig)
    (answers : Answers) (startFromId : Option String) :
    (getQuestionPath questions answers startFromId).length ≤ 2 * questions.length ∧
    (questions = [] → getQuestionPath questions answers startFromId = []) ∧
    (∀ q ∈ getQuestionPath questions answers startFromId, q ∈ questions) := by
  cases questions with
  | nil =>
    exact ⟨by simp [getQuestionPath], fun _ => rfl, by simp [getQuestionPath]⟩
  | cons q0 rest =>
    obtain ⟨hmem, hnd, hlen⟩ :=
      pathLoop_invariant (q0 :: rest) answers ((q0 :: rest).length * 2)
        (some (jsStartId startFromId q0.id)) [] []
        (by simp) (by simp) (by simp)
    refine ⟨?_, fun h => (List.cons_ne_nil q0 rest h).elim, fun q hq => hmem q hq⟩
    show (pathLoop (q0 :: rest) answers ((q0 :: rest).length * 2)
            (some (jsStartId startFromId q0.id)) [] []).length
          ≤ 2 * (q0 :: rest).length
    simp only [List.length_nil] at hlen
    omega

/-- Witness for C1: the invariants instantiated at the spec's 2-cycle
(A ↦ B ↦ A) and at the empty question list. -/
theorem getQuestionPath_total_bounded_witness :
    (getQuestionPath [exCycleA, exCycleB] [] none).length
        ≤ 2 * ([exCycleA, exCycleB] : List QuestionConfig).length ∧
    getQuestionPath ([] : List QuestionConfig) [] none = [] :=
  ⟨(getQuestionPath_total_bounded [exCycleA, exCycleB] [] none).1,
   (getQuestionPath_total_bounded [] [] none).2.1 rfl⟩

/-- **C9.** Every element of the sequence returned by `getQuestionPath` is a
question drawn from the input list, the elements' ids are pairwise distinct,
and consequently the path length never exceeds the number of questions in
the list. -/
theorem getQuestionPath_nodup_ids (questions : List QuestionConfig)
    (answers : Answers) (startFromId : Option String) :
    (∀ q ∈ getQuestionPath questions answers startFromId, q ∈ questions) ∧
    ((getQuestionPath questions answers startFromId).map fun q => q.id).Nodup ∧
    (getQuestionPath questions answers startFromId).length ≤ questions.length := by
  cases questions with
  | nil =>
    exact ⟨by simp [getQuestionPath], by simp [getQuestionPath],
      by simp [getQuestionPath]⟩
  | cons q0 rest =>
    obtain ⟨hmem, hnd, _⟩ :=
      pathLoop_invariant (q0 :: rest) answers ((q0 :: rest).length * 2)
        (some (jsStartId startFromId q0.id)) [] []
        (by simp) (by simp) (by simp)
    have hmem' : ∀ q ∈ getQuestionPath (q0 :: rest) answers startFromId,
        q ∈ q0 :: rest := fun q hq => hmem q hq
    have hnd' : ((getQuestionPath (q0 :: rest) answers startFromId).map
        fun q => q.id).Nodup := hnd
    exact ⟨hmem', hnd', length_le_of_nodup_ids _ _ hmem' hnd'⟩

/-- Witness for C9: the id distinctness and length bound instantiated at the
2-cycle list, whose projector path visits each question once. -/
theorem getQuestionPath_nodup_ids_witness :
    ((getQuestionPath [exCycleA, exCycleB] [] none).map fun q => q.id).Nodup ∧
    (getQuestionPath [exCycleA, exCycleB] [] none).length
      ≤ ([exCycleA, exCycleB] : List QuestionConfig).length :=
  ⟨(getQuestionPath_nodup_ids [exCycleA, exCycleB] [] none).2.1,
   (getQuestionPath_nodup_ids [exCycleA, exCycleB] [] none).2.2⟩

/-- **C2.** `getNextQuestionId` applies exactly the specification's
precedence: (1) the target of the first branch rule in declared order whose
condition evaluates true; (2) otherwise an explicitly configured default-next
(END or a specific id); (3) otherwise the id of the question immediately
following the current one in the list, or END if the current question is
last (`resolveSpec` is that precedence written from the spec's words; the
"in particular" sentence is clause (3) with an empty rule scan). -/
theorem getNextQuestionId_matches_spec (currentQuestion : QuestionConfig)
    (allQuestions : List QuestionConfig) (answers : Answers) :
    getNextQuestionId currentQuestion allQuestions answers
      = resolveSpec currentQuestion allQuestions answers := by
  unfold getNextQuestionId resolveSpec
  rw [branchRuleTarget_eq_find]
  cases hf : (currentQuestion.branches.getD []).find?
      fun b => evaluateCondition b.condition answers with
  | some rule => rfl
  | none => exact resolverTail_eq_spec currentQuestion allQuestions

/-- **C3.** For every condition and every answer map in which the condition's
source question id is missing, or mapped to an explicit null value,
`evaluateCondition` returns false, regardless of the operator and the
condition value. -/
theorem evaluateCondition_missing_false (condition : BranchCondition)
    (answers : Answers)
    (h : lookupAnswer answers condition.questionId = none ∨
         lookupAnswer answers condition.questionId = some Json.null) :
    evaluateCondition condition answers = false := by
  unfold evaluateCondition
  rcases h with h | h <;> rw [h]

/-- Witness for C3: an `equals` condition over the empty answer map. -/
theorem evaluateCondition_missing_false_witness :
    evaluateCondition
      { questionId := "q", operator := .equals, value := .scalar "x" } [] = false :=
  evaluateCondition_missing_false _ [] (Or.inl rfl)

/-- **C4.** For every present answer, `not_equals` is the exact logical
complement of `equals`; in particular, for a present list-valued answer,
`equals` is the strict membership test of the condition value in the list
(`jsArrayIncludesCondValue`) and `not_equals` is the negation of that same
membership test — not the negation of a full-list equality. -/
theorem equals_notEquals_complement (qid : String) (v : CondValue)
    (answers : Answers) (a : Json)
    (hlook : lookupAnswer answers qid = some a) (hnn : a ≠ Json.null) :
    evaluateCondition { questionId := qid, operator := .not_equals, value := v } answers
      = !evaluateCondition { questionId := qid, operator := .equals, value := v } answers ∧
    (∀ xs, a = Json.arr xs →
      evaluateCondition { questionId := qid, operator := .equals, value := v } answers
        = jsArrayIncludesCondValue xs v) := by
  unfold evaluateCondition
  simp only [hlook]
  cases a with
  | null => exact absurd rfl hnn
  | arr xs =>
    refine ⟨rfl, ?_⟩
    intro xs' hx
    cases hx
    rfl
  | str s => exact ⟨rfl, fun xs hx => Json.noConfusion hx⟩
  | num n => exact ⟨rfl, fun xs hx => Json.noConfusion hx⟩
  | bool b => exact ⟨rfl, fun xs hx => Json.noConfusion hx⟩
  | obj fields => exact ⟨rfl, fun xs hx => Json.noConfusion hx⟩

/-- Witness for C4: a present scalar answer, where `not_equals` is the
complement of `equals`. -/
theorem equals_notEquals_complement_witness :
    evaluateCondition
        { questionId := "q", operator := .not_equals, value := .scalar "a" }
        [("q", Json.str "a")]
      = !evaluateCondition
          { questionId := "q", operator := .equals, value := .scalar "a" }
          [("q", Json.str "a")] :=
  (equals_notEquals_complement "q" (.scalar "a") [("q", Json.str "a")]
    (Json.str "a") rfl (fun h => Json.noConfusion h)).1

/-- **C5 counterexample.** The claim asserts that the list-answer `equals`
membership comparison is performed on string-converted values, so that a
numeric list element and its string form compare equal.  At the answer
`[5]` (a one-element numeric list) and scalar condition value `"5"` — which
is exactly the string conversion of that element, second conjunct — the code
returns false: `answer.includes(conditionValue)` is a strict (SameValueZero)
test that never equates a number with a string. -/
theorem equals_list_string_conversion_counterexample :
    evaluateCondition
        { questionId := "q", operator := .equals, value := .scalar "5" }
        [("q", Json.arr [Json.num 5])] = false ∧
    jsonToString (Json.num 5) = "5" :=
  ⟨rfl, rfl⟩

/-- **C5 (amended).** For every present list-valued answer and scalar
condition value, `equals` returns true iff the condition value, as a JSON
string, is strictly an element of the answer list (no string conversion of
the elements: a numeric element and its string form do not compare equal; a
list-valued condition value never matches, second conjunct); for every other
present answer it returns true iff the string-converted answer equals the
string-converted condition value. -/
theorem equals_membership_amended (qid : String) (v : CondValue)
    (answers : Answers) (a : Json)
    (hlook : lookupAnswer answers qid = some a) (hnn : a ≠ Json.null) :
    (∀ xs s, a = Json.arr xs → v = CondValue.scalar s →
      (evaluateCondition { questionId := qid, operator := .equals, value := v } answers
          = true
        ↔ Json.str s ∈ xs)) ∧
    (∀ xs ss, a = Json.arr xs → v = CondValue.list ss →
      evaluateCondition { questionId := qid, operator := .equals, value := v } answers
        = false) ∧
    ((∀ xs, a ≠ Json.arr xs) →
      evaluateCondition { questionId := qid, operator := .equals, value := v } answers
        = (jsonToString a == condValueToString v)) := by
  unfold evaluateCondition
  simp only [hlook]
  refine ⟨?_, ?_, ?_⟩
  · rintro xs s rfl rfl
    exact jsArrayIncludes_scalar_iff xs s
  · rintro xs ss rfl rfl
    rfl
  · intro hna
    cases a with
    | null => exact absurd rfl hnn
    | arr xs => exact absurd rfl (hna xs)
    | str s => rfl
    | num n => rfl
    | bool b => rfl
    | obj fields => rfl

/-- Witness for the amended C5: the string `"x"` is strictly a member of the
list answer `["x"]`, so `equals` holds. -/
theorem equals_membership_amended_witness :
    evaluateCondition
        { questionId := "q", operator := .equals, value := .scalar "x" }
        [("q", Json.arr [Json.str "x"])] = true :=
  ((equals_membership_amended "q" (.scalar "x") [("q", Json.arr [Json.str "x"])]
      (Json.arr [Json.str "x"]) rfl (fun h => Json.noConfusion h)).1
    [Json.str "x"] "x" rfl rfl).mpr (List.mem_singleton.mpr rfl)

/-- **C6.** The `in` operator returns false whenever the condition value is
not a list, for every answer; when the condition value is a list, it returns
true iff some element of a list-valued answer, stringified, appears in the
condition list, or, for any other present answer, iff the single stringified
answer appears in the condition list. -/
theorem in_operator_spec (qid : String) (v : CondValue) (answers : Answers) :
    ((∀ ss, v ≠ CondValue.list ss) →
      evaluateCondition { questionId := qid, operator := .in_op, value := v } answers
        = false) ∧
    (∀ ss xs, v = CondValue.list ss →
      lookupAnswer answers qid = some (Json.arr xs) →
      evaluateCondition { questionId := qid, operator := .in_op, value := v } answers
        = xs.any fun x => ss.contains (jsonToString x)) ∧
    (∀ ss a, v = CondValue.list ss → lookupAnswer answers qid = some a →
      a ≠ Json.null → (∀ xs, a ≠ Json.arr xs) →
      evaluateCondition { questionId := qid, operator := .in_op, value := v } answers
        = ss.contains (jsonToString a)) := by
  refine ⟨?_, ?_, ?_⟩
  · intro hscalar
    cases v with
    | list ss => exact absurd rfl (hscalar ss)
    | scalar s =>
      unfold evaluateCondition
      cases hl : lookupAnswer answers qid with
      | none => rfl
      | some a => cases a <;> rfl
  · rintro ss xs rfl hl
    unfold evaluateCondition
    simp only [hl]
  · rintro ss a rfl hl hnn hna
    unfold evaluateCondition
    simp only [hl]

/-- Witness for C6, at the spec's own example: a non-list condition value
makes `in` false even though the stringified answer matches it. -/
theorem in_operator_spec_witness :
    evaluateCondition
        { questionId := "q", operator := .in_op, value := .scalar "x" }
        [("q", Json.str "x")] = false :=
  (in_operator_spec "q" (.scalar "x") [("q", Json.str "x")]).1
    (fun _ h => CondValue.noConfusion h)

/-- **C7 counterexample.** The claim asserts the range runs from the
*configured* min to the configured max.  At `exRating05` the configured min
is `0` and the configured max is `5`, so the claim predicts
`["0","1","2","3","4","5"]`; the code computes `minValue || 1`, and `0` is
falsy in JavaScript, so it returns `["1","2","3","4","5"]` instead. -/
theorem questionValues_zero_min_counterexample :
    getQuestionValues exRating05 = ["1", "2", "3", "4", "5"] ∧
    getQuestionValues exRating05 ≠ ["0", "1", "2", "3", "4", "5"] := by
  refine ⟨by decide, by decide⟩

/-- **C7 (amended).** For the two bounded-numeric kinds, `getQuestionValues`
returns the inclusive integer range, as decimal strings, from the effective
min to the effective max, where the effective bound is the configured value
when it is configured *and nonzero*, and otherwise the fixed default
(1–5 for `rating`, 1–10 for `opinion_scale`; `jsOrDefault` is JavaScript's
falsy-`||` fallback); it returns the empty list for every type other than
the choice-like, boolean-like, and bounded-numeric kinds. -/
theorem questionValues_range_amended (q : QuestionConfig) :
    (q.type = QuestionType.rating →
      getQuestionValues q
        = specRangeStrings (jsOrDefault q.minValue 1) (jsOrDefault q.maxValue 5)) ∧
    (q.type = QuestionType.opinion_scale →
      getQuestionValues q
        = specRangeStrings (jsOrDefault q.minValue 1) (jsOrDefault q.maxValue 10)) ∧
    (q.type ∉ [QuestionType.dropdown, QuestionType.checkboxes, QuestionType.yes_no,
               QuestionType.rating, QuestionType.opinion_scale] →
      getQuestionValues q = []) := by
  refine ⟨?_, ?_, ?_⟩
  · intro ht
    unfold getQuestionValues
    rw [ht]
    exact intRangeStrings_eq_specRange _ _
  · intro ht
    unfold getQuestionValues
    rw [ht]
    exact intRangeStrings_eq_specRange _ _
  · intro hnot
    cases ht : q.type
    all_goals first
      | exact absurd (by rw [ht]; decide) hnot
      | (unfold getQuestionValues; rw [ht])

/-- Witness for the amended C7, at the spec's example
`ratingQuestion{min:1,max:5}`: the decimal strings "1" through "5". -/
theorem questionValues_range_amended_witness :
    getQuestionValues exRating15 = ["1", "2", "3", "4", "5"] := by
  have h := (questionValues_range_amended exRating15).1 rfl
  rw [h]
  rfl

/-- **C8 counterexample.** Two `createBranchRule` calls whose TypeScript
arguments are equal but whose ambient `crypto.randomUUID()` draws (the
explicit `generatedId` argument of the embedding) differ produce different
rules, so the source function is not determined by its declared inputs. -/
theorem createBranchRule_random_id_counterexample :
    createBranchRule "uuid-1" "q1" .equals "" none
      ≠ createBranchRule "uuid-2" "q1" .equals "" none := by
  decide

/-- **C8 (amended).** Every operation of the core other than the rule-id
generation inside `createBranchRule` is deterministic and free of side
effects over immutable inputs (in this embedding all operations are total
functions); `createBranchRule` is determined by its declared inputs together
with the UUID drawn from the ambient generator: with equal declared inputs,
two calls return equal rules exactly when the drawn UUIDs are equal. -/
theorem createBranchRule_deterministic_given_uuid (u1 u2 qid : String)
    (op : BranchOperator) (value : String) (nid : Option String) :
    createBranchRule u1 qid op value nid = createBranchRule u2 qid op value nid
      ↔ u1 = u2 := by
  constructor
  · intro h
    exact congrArg BranchRule.id h
  · intro h
    rw [h]

/-- **C10.** If the current question's id does not occur in the supplied
question list, none of its branch rules' conditions evaluate true, and its
default-next is not configured, then `getNextQuestionId` returns END
(`none`) rather than raising or returning any question id. -/
theorem getNextQuestionId_absent_end (currentQuestion : QuestionConfig)
    (allQuestions : List QuestionConfig) (answers : Answers)
    (habsent : ∀ q ∈ allQuestions, q.id ≠ currentQuestion.id)
    (hrules : ∀ b ∈ currentQuestion.branches.getD [],
      evaluateCondition b.condition answers = false)
    (hdef : currentQuestion.defaultNextId = none) :
    getNextQuestionId currentQuestion allQuestions answers = none := by
  unfold getNextQuestionId
  rw [branchRuleTarget_eq_find]
  have hf : (currentQuestion.branches.getD []).find?
      (fun b => evaluateCondition b.condition answers) = none :=
    List.find?_eq_none.mpr (fun b hb => by simp [hrules b hb])
  have hidx : findIndex (fun q => q.id == currentQuestion.id) allQuestions = none :=
    findIndexAux_eq_none _ allQuestions
      (fun q hq => by simp [habsent q hq]) 0
  rw [hf, hdef, hidx]
  rfl

/-- Witness for C10: a question with id `"x"`, one never-matching rule, and
no configured default, resolved against a list that does not contain it. -/
theorem getNextQuestionId_absent_end_witness :
    getNextQuestionId exOrphan [exPlain] [] = none :=
  getNextQuestionId_absent_end exOrphan [exPlain] []
    (by decide) (by decide) rfl
